import Mathlib

/-!
Verification of the Turing-Machine-on-a-stack-machine compiler.

The development shallowly embeds the core of the repository:

* `stack.rs`   — the substrate instruction set (`SmInstruction`) and the
  interpreter (`StackMachine::run_instruction`), embedded as a big-step
  relation `BigStep` / `BigStepList` over a `Config` record that carries the
  two variables, the stack, the error flag, and the input/output byte
  streams.  The interpreter mutates state and loops (`While`), so it is
  embedded as a step relation; every other part of the code is pure and is
  embedded as executable functions.
* `ast.rs` / `compile.rs` — the machine AST and the lowering functions
  (`compileTapeInstruction`, `compileTransition`, `compileTransitions`,
  `compileState`, `compileProgram`).
* `validate.rs` — the validator (`validateProgram` and friends).
* `turing.rs`  — the input checks of `TuringMachine::run_with_io`
  (`inputError`, `runOutcome`).

Machine integers are modelled as unbounded `Int` (the Rust code uses `i64`;
no claim here reaches values anywhere near overflow, and the repository
itself declares overflow out of scope).  Characters and bytes are `Nat`.
-/

namespace TMC

/-- One step to run on the stack machine.  Mirrors `SmInstruction` in
`stack.rs` constructor by constructor; the `String` payloads of the comment
and debug variants are kept because the lowerer emits them, although they
have no effect on execution. -/
inductive SmInstruction where
  | ReadToActive : SmInstruction
  | PrintActive : SmInstruction
  | PrintState : SmInstruction
  | IncrActive : SmInstruction
  | DecrActive : SmInstruction
  | SaveActive : SmInstruction
  | Swap : SmInstruction
  | PushZero : SmInstruction
  | PushActive : SmInstruction
  | PopToActive : SmInstruction
  | ToggleErrors : SmInstruction
  | If : List SmInstruction → SmInstruction
  | While : List SmInstruction → SmInstruction
  | Comment : String → SmInstruction
  | InlineComment : SmInstruction → String → SmInstruction
  | DebugPrint : String → Bool → SmInstruction

/-- The state of the `StackMachine` from `stack.rs`, together with the
remaining input bytes of the reader and the bytes written so far to the
writer.  The head of `stack` is the top of the Rust `Vec` stack. -/
structure Config where
  activeVar : Int
  inactiveVar : Int
  stack : List Int
  errorsEnabled : Bool
  input : List Nat
  output : List Nat
deriving DecidableEq, Repr

/-- The bytes of a string (all strings the machine prints are ASCII). -/
def strBytes (s : String) : List Nat :=
  s.data.map Char.toNat

/-- The bytes written by `StackMachine::write_stack` (used by `PrintState`):
the two variables, a separator, then the stack from top to bottom, then a
blank line. -/
def dumpBytes (c : Config) : List Nat :=
  strBytes ("Active: " ++ toString c.activeVar ++ "\nInactive: "
      ++ toString c.inactiveVar ++ "\n-----\n"
      ++ String.join (c.stack.map (fun v => "- " ++ toString v ++ "\n"))
      ++ "\n")

mutual
/-- Big-step execution of a single instruction, mirroring
`StackMachine::run_instruction` in `stack.rs` arm by arm.

* `ReadToActive` reads one byte if the input has one, else does nothing.
* `PrintActive` emits the low byte of the active variable
  (`to_be_bytes()[7..]`, i.e. the value modulo 256).
* `PopToActive` on an empty stack has a rule only when errors are disabled
  (yielding 0); with errors enabled the Rust code panics, so that
  configuration simply has no successor here.  I/O never fails in this
  model, so the corresponding `error_if_enabled` branches do not appear.
* `DebugPrint` writes to the process stdout, not to the machine writer, so
  it leaves the modelled output untouched. -/
inductive BigStep : Config → SmInstruction → Config → Prop where
  | readSome (c : Config) (b : Nat) (rest : List Nat) :
      c.input = b :: rest →
      BigStep c .ReadToActive { c with activeVar := (b : Int), input := rest }
  | readNone (c : Config) :
      c.input = [] →
      BigStep c .ReadToActive c
  | printActive (c : Config) :
      BigStep c .PrintActive
        { c with output := c.output ++ [(c.activeVar % 256).toNat] }
  | printState (c : Config) :
      BigStep c .PrintState { c with output := c.output ++ dumpBytes c }
  | incr (c : Config) :
      BigStep c .IncrActive { c with activeVar := c.activeVar + 1 }
  | decr (c : Config) :
      BigStep c .DecrActive { c with activeVar := c.activeVar - 1 }
  | save (c : Config) :
      BigStep c .SaveActive { c with inactiveVar := c.activeVar }
  | swap (c : Config) :
      BigStep c .Swap
        { c with activeVar := c.inactiveVar, inactiveVar := c.activeVar }
  | pushZero (c : Config) :
      BigStep c .PushZero { c with stack := 0 :: c.stack }
  | pushActive (c : Config) :
      BigStep c .PushActive { c with stack := c.activeVar :: c.stack }
  | popCons (c : Config) (v : Int) (rest : List Int) :
      c.stack = v :: rest →
      BigStep c .PopToActive { c with activeVar := v, stack := rest }
  | popNil (c : Config) :
      c.stack = [] → c.errorsEnabled = false →
      BigStep c .PopToActive { c with activeVar := 0 }
  | toggleErrors (c : Config) :
      BigStep c .ToggleErrors { c with errorsEnabled := !c.errorsEnabled }
  | ifTrue (c c' : Config) (body : List SmInstruction) :
      c.activeVar = c.inactiveVar →
      BigStepList c body c' →
      BigStep c (.If body) c'
  | ifFalse (c : Config) (body : List SmInstruction) :
      c.activeVar ≠ c.inactiveVar →
      BigStep c (.If body) c
  | whileTrue (c c' c'' : Config) (body : List SmInstruction) :
      0 < c.activeVar →
      BigStepList c body c' →
      BigStep c' (.While body) c'' →
      BigStep c (.While body) c''
  | whileFalse (c : Config) (body : List SmInstruction) :
      ¬ 0 < c.activeVar →
      BigStep c (.While body) c
  | comment (c : Config) (s : String) :
      BigStep c (.Comment s) c
  | inlineComment (c c' : Config) (i : SmInstruction) (s : String) :
      BigStep c i c' →
      BigStep c (.InlineComment i s) c'
  | debugPrint (c : Config) (s : String) (b : Bool) :
      BigStep c (.DebugPrint s b) c

/-- Big-step execution of a list of instructions in order, mirroring
`StackMachine::run` (and the loops of `do_if` / `do_while`). -/
inductive BigStepList : Config → List SmInstruction → Config → Prop where
  | nil (c : Config) : BigStepList c [] c
  | cons (c c' c'' : Config) (i : SmInstruction) (rest : List SmInstruction) :
      BigStep c i c' →
      BigStepList c' rest c'' →
      BigStepList c (i :: rest) c''
end

/-! ## Machine AST (`ast.rs`) -/

/-- `ALPHABET_SIZE = 1 << CHAR_SIZE_BITS = 128` from `ast.rs`. -/
def ALPHABET_SIZE : Nat := 128

/-- The tape instructions of a transition (`TapeInstruction` in `ast.rs`).
Characters are modelled as their code points. -/
inductive TapeInstruction where
  | Left : TapeInstruction
  | Right : TapeInstruction
  | Write : Nat → TapeInstruction
deriving DecidableEq, Repr

/-- One transition (`Transition` in `ast.rs`). -/
structure Transition where
  matchChar : Nat
  tapeInstruction : TapeInstruction
  nextState : Nat
deriving DecidableEq, Repr

/-- One machine state (`State` in `ast.rs`). -/
structure State where
  id : Nat
  initial : Bool
  accepting : Bool
  transitions : List Transition
deriving DecidableEq, Repr

/-- A whole machine description (`Program` in `ast.rs`). -/
structure Program where
  states : List State
deriving DecidableEq, Repr

/-! ## The lowerer (`compile.rs`) -/

/-- The text produced by the `state_comment!` macro of `compile.rs`: note the
macro's `concat!($($se, ", "),*)` leaves a trailing separator after each
element. -/
def stateComment (a i : String) (se : List String) : SmInstruction :=
  .Comment ("Active: " ++ a ++ "; Inactive: " ++ i ++ "; ["
    ++ String.join (se.map (fun s => s ++ ", ")) ++ "]")

/-- The instruction sequence generated by the `print_string!` macro of
`compile.rs`: a comment, then for each character of the string followed by a
newline, increments up to the code point, a print, and a reset of the active
variable to zero.  (Comment payloads are behaviourally inert; here and in
the tape-write comment the exact formatting of the Rust `format!` text is
simplified — quotes omitted, characters shown as code points.) -/
def printString (s : String) : List SmInstruction :=
  .Comment ("Print " ++ s) ::
    (s.data ++ [Char.ofNat 10]).flatMap (fun ch =>
      List.replicate ch.toNat .IncrActive
        ++ [.PrintActive, .PushZero, .PopToActive])

/-- `Compile for TapeInstruction` in `compile.rs`, arm by arm.  In the
`Right` arm, `iter::repeat(...).take(ALPHABET_SIZE - 1)` repeats the
add-then-reload block 127 times; the `Left` arm repeats `DecrActive`
`ALPHABET_SIZE` (128) times inside the `While` and `IncrActive` 128 times
after it. -/
def compileTapeInstruction : TapeInstruction → List SmInstruction
  | .Left =>
      [.Comment "Move left", .PushZero, .PopToActive, .Swap,
       .While (List.replicate ALPHABET_SIZE .DecrActive
         ++ [.Swap, .IncrActive, .Swap])]
      ++ List.replicate ALPHABET_SIZE .IncrActive
      ++ [.PushActive, .Swap, .DecrActive, .Swap]
  | .Right =>
      [.Comment "Move right", .Swap, .PushActive]
      ++ (List.replicate (ALPHABET_SIZE - 1)
            [.While [.DecrActive, .Swap, .IncrActive, .Swap],
             .PopToActive, .PushActive]).flatten
      ++ [stateComment "0" "Left tape"
            ["Left tape original", "Head", "...Right tape"],
          .Comment "Add old head to left tape",
          .PopToActive, .PopToActive,
          .While [.DecrActive, .Swap, .IncrActive, .Swap]]
  | .Write c =>
      [.Comment ("Write " ++ toString c ++ " to tape"),
       .PopToActive, .PushZero, .PopToActive]
      ++ List.replicate c .IncrActive
      ++ [.PushActive]

/-- `Compile for Transition` in `compile.rs`. -/
def compileTransition (t : Transition) : List SmInstruction :=
  [.PopToActive, .Swap, .PushActive,
   stateComment "FREE" "Left tape" ["Head", "...Right tape"]]
  ++ compileTapeInstruction t.tapeInstruction
  ++ [stateComment "FREE" "NEW Left tape" ["NEW Head", "...NEW Right tape"],
      .Swap, .PushActive, .PushZero, .PopToActive, .SaveActive,
      stateComment "0" "0" ["Left tape", "Head", "...Right tape"],
      .Comment ("Set next state=" ++ toString t.nextState)]
  ++ List.replicate t.nextState .IncrActive
  ++ [.PushActive, .PushZero, .PopToActive, .DecrActive, .Swap]

/-- The `keyed_by_char` map of `Compile for [Transition]`: collecting
`(match_char, transition)` pairs into a `HashMap` keeps, for each character,
the transition that occurs LAST in the list (later `HashMap` insertions
overwrite earlier ones). -/
def keyedByChar (ts : List Transition) (c : Nat) : Option Transition :=
  (ts.filter (fun t => t.matchChar == c)).getLast?

/-- The per-character code of the sweep in `Compile for [Transition]`: an
optional guarded transition body, then the unconditional increment. -/
def transitionSeg (ts : List Transition) (c : Nat) : List SmInstruction :=
  (match keyedByChar ts c with
    | some t => [.Comment ("Transition for char=" ++ toString c),
                 .If (compileTransition t)]
    | none => [])
  ++ [.InlineComment .IncrActive
        ("Incr for transition char=" ++ toString (c + 1))]

/-- `Compile for [Transition]` in `compile.rs`: the sweep over every
character of `0..ALPHABET_SIZE`. -/
def compileTransitions (ts : List Transition) : List SmInstruction :=
  (List.range ALPHABET_SIZE).flatMap (transitionSeg ts)

/-- `Compile for State` in `compile.rs`: the countdown decrement, and the
guarded state body (head-char unpacking, the transition sweep, and the HALT
fall-through check). -/
def compileState (s : State) : List SmInstruction :=
  [.Comment ("Check state " ++ toString s.id),
   .DecrActive,
   .If ([.PopToActive, .Swap, .PopToActive, .Swap, .PushActive,
         .PushZero, .PopToActive,
         stateComment "0" "Head" ["Left tape", "...Right tape"]]
     ++ compileTransitions s.transitions
     ++ [.Swap, .IncrActive,
         .Comment "HALT transition check - this While is really an If>0",
         .While ([.DecrActive, .Swap, .PopToActive, .Swap, .PushActive,
                  .Swap, .PushActive, .PushZero, .PopToActive, .SaveActive]
           ++ (if s.accepting then
                 [.Comment "Push 0 for ACCEPT", .PushZero]
               else
                 [.Comment "Push -1 for REJECT",
                  .DecrActive, .PushActive, .IncrActive])),
         .SaveActive])]

/-- `Compile for Valid<Program>` in `compile.rs`.  The Rust code `expect`s an
initial state (validation guarantees one); on a description with no initial
state this model returns `[]`, a case never reached through validated
programs. -/
def compileProgram (p : Program) : List SmInstruction :=
  match p.states.find? (fun s => s.initial) with
  | none => []
  | some initialState =>
      [.InlineComment .ToggleErrors "Disable errors",
       .Comment "Read input onto stack (in reverse)",
       .ReadToActive,
       .While [.PushActive, .PushZero, .PopToActive, .ReadToActive],
       .PushZero,
       .Comment "Set initial state"]
      ++ List.replicate initialState.id .IncrActive
      ++ [stateComment "Initial state ID" "0" ["0", "Head", "...Right tape"],
          .Comment "Main loop",
          .While (((p.states.mergeSort (fun a b => a.id ≤ b.id)).flatMap
              compileState) ++ [.PopToActive]),
          .PrintState,
          .DebugPrint "Checking result" false,
          .If (printString "ACCEPT"),
          .IncrActive,
          .If (printString "REJECT")]

/-! ## The validator (`validate.rs`, `error.rs`) -/

/-- `CompilerError` from `error.rs` (the `src/lib` tree; the transition
validator constructs the character-error variant for out-of-range match
characters). -/
inductive CompilerError where
  | InvalidStateId : Nat → CompilerError
  | DuplicateStateId : Nat → CompilerError
  | NoInitialState : CompilerError
  | MultipleInitialStates : List Nat → CompilerError
  | UndefinedState : Nat → CompilerError
  | IllegalCharacter : Nat → CompilerError
deriving DecidableEq, Repr

/-- The state ids of a program, in source order. -/
def stateIds (p : Program) : List Nat :=
  p.states.map State.id

/-- `Validate for Transition`: the match character must be nonzero and below
`ALPHABET_SIZE`, and the next state must be a declared id (the context set
built from all states). -/
def validateTransition (ids : List Nat) (t : Transition) :
    List CompilerError :=
  (if t.matchChar = 0 ∨ ALPHABET_SIZE ≤ t.matchChar
    then [.IllegalCharacter t.matchChar] else [])
  ++ (if t.nextState ∈ ids then [] else [.UndefinedState t.nextState])

/-- `Validate for State`: a zero id is invalid, then each transition is
validated. -/
def validateState (ids : List Nat) (s : State) : List CompilerError :=
  (if s.id = 0 then [.InvalidStateId s.id] else [])
  ++ s.transitions.flatMap (validateTransition ids)

/-- `Validate for Program`: one `DuplicateStateId` per id held by several
states (the Rust code counts occurrences in a `HashMap`, so each duplicated
id yields exactly one error; `dedup` plays the role of the map's distinct
key set), then the per-state errors, then the initial-state check. -/
def validateProgram (p : Program) : List CompilerError :=
  let ids := stateIds p
  let dupErrors := ((ids.dedup.filter (fun id => 2 ≤ ids.count id)).map
    CompilerError.DuplicateStateId)
  let stateErrors := p.states.flatMap (validateState ids)
  let initials := (p.states.filter (fun s => s.initial)).map State.id
  let initialErrors :=
    if initials.isEmpty then [.NoInitialState]
    else if 1 < initials.length then [.MultipleInitialStates initials]
    else []
  dupErrors ++ stateErrors ++ initialErrors

/-! ## The run facade (`turing.rs`) -/

/-- The errors `TuringMachine::run_with_io` can return before the machine
executes: `AsciiString::from_str` fails on the first code point that is not
7-bit ASCII, and the explicit scan fails with `BlankCharInInput` on the
first NUL character. -/
inductive RunError where
  | notAscii : Nat → RunError
  | blankCharInInput : RunError
deriving DecidableEq, Repr

/-- The input checks of `TuringMachine::run_with_io`, in the order the Rust
code performs them: the ASCII conversion (first offending index), then the
blank-character scan.  `none` means the machine is executed. -/
def inputError (input : List Nat) : Option RunError :=
  match input.findIdx? (fun b => 128 ≤ b) with
  | some i => some (.notAscii i)
  | none => if input.any (fun b => b = 0) then some .blankCharInInput
            else none

/-- The starting configuration of one `run`: a fresh `StackMachine::new()`
(zero variables, empty stack, errors enabled) reading the given input. -/
def initConfig (input : List Nat) : Config :=
  { activeVar := 0, inactiveVar := 0, stack := [], errorsEnabled := true,
    input := input, output := [] }

/-- The observable outcome of `TuringMachine::run_with_output` on a compiled
instruction list: an input error leaves the machine unexecuted (the buffer
is dropped), otherwise the machine runs to completion and the buffer is
returned. -/
def runOutcome (prog : List SmInstruction) (input : List Nat)
    (r : Except RunError (List Nat)) : Prop :=
  match inputError input with
  | some e => r = .error e
  | none => ∃ c', BigStepList (initConfig input) prog c' ∧ r = .ok c'.output

/-! ## Basic execution lemmas -/

/-- Executing a concatenation is executing the parts in order. -/
theorem exec_append : ∀ {p : List SmInstruction} {q : List SmInstruction}
    {c c' c'' : Config}, BigStepList c p c' → BigStepList c' q c'' →
    BigStepList c (p ++ q) c'' := by
  intro p
  induction p with
  | nil =>
      intro q c c' c'' h1 h2
      cases h1
      simpa using h2
  | cons i rest ih =>
      intro q c c' c'' h1 h2
      cases h1 with
      | cons _ cmid _ _ _ hstep hrest =>
          exact .cons _ _ _ _ _ hstep (ih hrest h2)

/-- A single instruction as a singleton program. -/
theorem exec_single {c c' : Config} {i : SmInstruction}
    (h : BigStep c i c') : BigStepList c [i] c' :=
  .cons _ _ _ _ _ h (.nil c')

/-- A run of `n` increments adds `n` to the active variable. -/
theorem exec_incrRun (n : Nat) (c : Config) :
    BigStepList c (List.replicate n .IncrActive)
      { c with activeVar := c.activeVar + n } := by
  induction n generalizing c with
  | zero => simpa using BigStepList.nil c
  | succ n ih =>
      rw [List.replicate_succ]
      refine .cons _ _ _ _ _ (.incr c) ?_
      have h := ih { c with activeVar := c.activeVar + 1 }
      have harith : c.activeVar + 1 + (n : Int) = c.activeVar + ((n + 1 : Nat) : Int) := by
        push_cast
        ring
      rw [harith] at h
      exact h

/-- A run of `n` decrements subtracts `n` from the active variable. -/
theorem exec_decrRun (n : Nat) (c : Config) :
    BigStepList c (List.replicate n .DecrActive)
      { c with activeVar := c.activeVar - n } := by
  induction n generalizing c with
  | zero => simpa using BigStepList.nil c
  | succ n ih =>
      rw [List.replicate_succ]
      refine .cons _ _ _ _ _ (.decr c) ?_
      have h := ih { c with activeVar := c.activeVar - 1 }
      have harith : c.activeVar - 1 - (n : Int) = c.activeVar - ((n + 1 : Nat) : Int) := by
        push_cast
        ring
      rw [harith] at h
      exact h

/-- Transporting a single-step result along an equality of final
configurations. -/
theorem bigStep_config_eq {c : Config} {i : SmInstruction} {c₁ c₂ : Config}
    (h : BigStep c i c₁) (he : c₁ = c₂) : BigStep c i c₂ :=
  he ▸ h

/-- Transporting a list-run result along an equality of final
configurations. -/
theorem bigStepList_config_eq {c : Config} {p : List SmInstruction}
    {c₁ c₂ : Config} (h : BigStepList c p c₁) (he : c₁ = c₂) :
    BigStepList c p c₂ :=
  he ▸ h

/-- One pass of the add-and-zero idiom body. -/
theorem exec_addLoopBody (c : Config) :
    BigStepList c [.DecrActive, .Swap, .IncrActive, .Swap]
      { c with activeVar := c.activeVar - 1, inactiveVar := c.inactiveVar + 1 } := by
  refine .cons _ _ _ _ _ (.decr c) ?_
  refine .cons _ _ _ _ _ (.swap _) ?_
  refine .cons _ _ _ _ _ (.incr _) ?_
  refine .cons _ _ _ _ _ (.swap _) ?_
  exact .nil _

/-- The add-and-zero idiom `While { Decr; Swap; Incr; Swap }`: starting from
a nonnegative active variable it moves the active variable into the
inactive one. -/
theorem exec_addLoop (a : Nat) (c : Config) (ha : c.activeVar = (a : Int)) :
    BigStep c (.While [.DecrActive, .Swap, .IncrActive, .Swap])
      { c with activeVar := 0, inactiveVar := c.inactiveVar + a } := by
  induction a generalizing c with
  | zero =>
      have hzero : ¬ 0 < c.activeVar := by rw [ha]; simp
      have ha0 : c.activeVar = 0 := by simpa using ha
      convert BigStep.whileFalse c _ hzero using 1
      cases c
      simp_all
  | succ a ih =>
      have hpos : 0 < c.activeVar := by rw [ha]; positivity
      refine BigStep.whileTrue c _ _ _ hpos (exec_addLoopBody c) ?_
      have h := ih { c with activeVar := c.activeVar - 1, inactiveVar := c.inactiveVar + 1 } (by simp [ha])
      refine bigStep_config_eq h ?_
      congr 1
      push_cast
      ring

/-! ## The emitted tape-shift code: closed forms -/

/-- The repeated add-and-reload block of the `Right` arm: each of the `n`
passes adds the saved original left tape (on top of the stack and in the
active variable) to the inactive variable. -/
theorem exec_rightReps (n lt : Nat) (i0 : Int) (s : List Int) (err : Bool)
    (inp out : List Nat) :
    BigStepList ⟨(lt : Int), i0, (lt : Int) :: s, err, inp, out⟩
      ((List.replicate n [SmInstruction.While [.DecrActive, .Swap, .IncrActive, .Swap], .PopToActive, .PushActive]).flatten)
      ⟨(lt : Int), i0 + n * lt, (lt : Int) :: s, err, inp, out⟩ := by
  induction n generalizing i0 with
  | zero =>
      refine @bigStepList_config_eq _ _ ⟨(lt : Int), i0, (lt : Int) :: s, err, inp, out⟩ _ ?_ ?_
      · simpa using BigStepList.nil _
      · congr 1
        push_cast
        ring
  | succ n ih =>
      rw [List.replicate_succ, List.flatten_cons]
      refine exec_append ?_ (bigStepList_config_eq (ih (i0 + lt)) ?_)
      · refine .cons _ _ _ _ _ (exec_addLoop lt _ rfl) ?_
        refine .cons _ _ _ _ _ (.popCons _ _ _ rfl) ?_
        refine .cons _ _ _ _ _ (.pushActive _) ?_
        exact .nil _
      · congr 1
        push_cast
        ring

/-- Closed form of the emitted `Right` tape code: entered with the active
variable holding any value `a0`, the inactive variable holding the encoded
left tape, and the old head on top of the stack, it pops the head and
leaves `a0 + 127·LT + H` in the inactive variable.  (The lowerer enters
this code with `a0 = H`, the matched head character.) -/
theorem exec_rightCode (a0 : Int) (lt h : Nat) (s : List Int) (err : Bool)
    (inp out : List Nat) :
    BigStepList ⟨a0, (lt : Int), (h : Int) :: s, err, inp, out⟩
      (compileTapeInstruction .Right)
      ⟨0, a0 + (ALPHABET_SIZE - 1 : Nat) * lt + h, s, err, inp, out⟩ := by
  show BigStepList _ ([.Comment _, .Swap, .PushActive] ++ _ ++ _) _
  refine exec_append (exec_append ?_ (exec_rightReps _ lt a0 ((h : Int) :: s) err inp out)) ?_
  · refine .cons _ _ _ _ _ (.comment _ _) ?_
    refine .cons _ _ _ _ _ (.swap _) ?_
    refine .cons _ _ _ _ _ (.pushActive _) ?_
    exact .nil _
  · refine .cons _ _ _ _ _ (.comment _ _) ?_
    refine .cons _ _ _ _ _ (.comment _ _) ?_
    refine .cons _ _ _ _ _ (.popCons _ _ _ rfl) ?_
    refine .cons _ _ _ _ _ (.popCons _ _ _ rfl) ?_
    refine exec_single (bigStep_config_eq (exec_addLoop h _ rfl) ?_)
    congr 1

/-- The body of the division loop in the `Left` arm: 128 decrements, then a
counter increment threaded through the inactive variable. -/
theorem exec_subLoopBody (c : Config) :
    BigStepList c
      (List.replicate ALPHABET_SIZE .DecrActive ++ [.Swap, .IncrActive, .Swap])
      { c with activeVar := c.activeVar - 128, inactiveVar := c.inactiveVar + 1 } := by
  refine exec_append (exec_decrRun ALPHABET_SIZE c) ?_
  refine .cons _ _ _ _ _ (.swap _) ?_
  refine .cons _ _ _ _ _ (.incr _) ?_
  refine .cons _ _ _ _ _ (.swap _) ?_
  refine bigStepList_config_eq (.nil _) ?_
  congr 1

/-- One unrolling of the division loop of the `Left` arm. -/
theorem exec_subLoop_step {c c' : Config}
    (hpos : 0 < c.activeVar)
    (hrest : BigStep { c with activeVar := c.activeVar - 128, inactiveVar := c.inactiveVar + 1 } (.While (List.replicate ALPHABET_SIZE .DecrActive ++ [.Swap, .IncrActive, .Swap])) c') :
    BigStep c (.While (List.replicate ALPHABET_SIZE .DecrActive ++ [.Swap, .IncrActive, .Swap])) c' :=
  .whileTrue _ _ _ _ hpos (exec_subLoopBody c) hrest

/-- Termination of the division loop of the `Left` arm. -/
theorem exec_subLoop_done (c : Config) (hnpos : ¬ 0 < c.activeVar) :
    BigStep c (.While (List.replicate ALPHABET_SIZE .DecrActive ++ [.Swap, .IncrActive, .Swap])) c :=
  .whileFalse _ _ hnpos

/-- The emitted `Left` tape code around its division loop: whatever the loop
leaves in the two variables (`aW` in the active, the pass counter `xW` in
the inactive), the code then adds 128 back, pushes that value as the new
head, and leaves `xW - 1` as the new encoded left tape. -/
theorem exec_leftCode (a0 aW xW lt : Int) (s : List Int) (err : Bool)
    (inp out : List Nat)
    (hW : BigStep ⟨lt, 0, s, err, inp, out⟩ (.While (List.replicate ALPHABET_SIZE .DecrActive ++ [.Swap, .IncrActive, .Swap])) ⟨aW, xW, s, err, inp, out⟩) :
    BigStepList ⟨a0, lt, s, err, inp, out⟩ (compileTapeInstruction .Left)
      ⟨aW + 128, xW - 1, (aW + 128) :: s, err, inp, out⟩ := by
  show BigStepList _ ([.Comment _, .PushZero, .PopToActive, .Swap, .While _] ++ _ ++ _) _
  refine @exec_append _ _ _ ⟨aW + 128, xW, s, err, inp, out⟩ _ (@exec_append _ _ _ ⟨aW, xW, s, err, inp, out⟩ _ ?_ ?_) ?_
  · refine .cons _ _ _ _ _ (.comment _ _) ?_
    refine .cons _ _ _ _ _ (.pushZero _) ?_
    refine .cons _ _ _ _ _ (.popCons _ _ _ rfl) ?_
    refine .cons _ _ _ _ _ (.swap _) ?_
    exact exec_single hW
  · refine bigStepList_config_eq (exec_incrRun ALPHABET_SIZE _) ?_
    congr 1
  · refine .cons _ _ _ _ _ (.pushActive _) ?_
    refine .cons _ _ _ _ _ (.swap _) ?_
    refine .cons _ _ _ _ _ (.decr _) ?_
    refine .cons _ _ _ _ _ (.swap _) ?_
    exact .nil _

/-! ## Claims C1, C2, C3: the emitted shift code versus the specified
tape encoding -/

/-- Claim C1.  The spec says the emitted `Right` code turns the encoded left
tape `LT` with head `H` into `LT · 128 + H`.  The code actually leaves
`A₀ + 127·LT + H` in the inactive variable, where `A₀` is the entry value of
the active variable (`A₀ = H` at the lowerer's call site): at the contract
entry state `A₀ = 0`, `LT = 1`, `H = 0` (and empty right tape) it produces
`127`, not `128·1 + 0 = 128`.  The general behaviour is `exec_rightCode`. -/
theorem claim_C1_right_shift_failing_input :
    BigStepList ⟨0, 1, [0], false, [], []⟩ (compileTapeInstruction .Right)
      ⟨0, 127, [], false, [], []⟩ ∧ (127 : Int) ≠ 128 * 1 + 0 := by
  constructor
  · refine bigStepList_config_eq (exec_rightCode 0 1 0 [] false [] []) ?_
    congr 1
  · norm_num

/-- Claim C2.  The spec says the emitted `Left` code yields head
`H' = LT mod 128` and left tape `LT' = ⌊LT/128⌋`, in particular `(0, 0)`
when `LT = 0`.  The code adds 128 back unconditionally even when the
division loop never ran, so at `LT = 0` (entered at the call-site state
`A = H = 7`, old head `7` on the stack) it pushes head `128` — not a tape
character at all — and leaves `LT' = -1`. -/
theorem claim_C2_left_shift_failing_input :
    BigStepList ⟨7, 0, [7], false, [], []⟩ (compileTapeInstruction .Left)
      ⟨128, -1, [128, 7], false, [], []⟩ ∧
      ((128 : Int) ≠ 0 ∧ (-1 : Int) ≠ 0) := by
  refine ⟨?_, by norm_num, by norm_num⟩
  have hW := exec_subLoop_done ⟨0, 0, [7], false, [], []⟩ (by norm_num)
  have h := exec_leftCode 7 0 0 0 [7] false [] [] hW
  refine bigStepList_config_eq h ?_
  congr 1

/-- Claim C3.  A `Right` followed by a `Left` (blank to the right, i.e.
empty right-tape stack) is claimed to restore `(LT, H)`.  From the
call-site entry `A = H = 5`, `LT = 0`, stack `[5]`, the pair of emitted
code blocks ends with head `10` and left tape `0`: the head comes back
doubled (`2·H` mod the broken shift), not restored. -/
theorem claim_C3_round_trip_failing_input :
    BigStepList ⟨5, 0, [5], false, [], []⟩
      (compileTapeInstruction .Right ++ compileTapeInstruction .Left)
      ⟨10, 0, [10], false, [], []⟩ ∧ (10 : Int) ≠ 5 := by
  constructor
  · refine @exec_append _ _ _ ⟨0, 10, [], false, [], []⟩ _ (bigStepList_config_eq (exec_rightCode 5 0 5 [] false [] []) ?_) ?_
    · congr 1
    · have hW : BigStep ⟨10, 0, ([] : List Int), false, [], []⟩ (.While (List.replicate ALPHABET_SIZE .DecrActive ++ [.Swap, .IncrActive, .Swap])) ⟨-118, 1, [], false, [], []⟩ := by
        refine exec_subLoop_step (by norm_num) ?_
        have hdone := exec_subLoop_done ⟨10 - 128, 0 + 1, [], false, [], []⟩ (by norm_num)
        refine bigStep_config_eq hdone ?_
        congr 1
      have h := exec_leftCode 0 (-118) 1 10 [] false [] [] hW
      refine bigStepList_config_eq h ?_
      congr 1
  · norm_num

/-! ## Claim C4: the inactive-variable frame property -/

/-- The primitive instructions that never touch the inactive variable:
everything except `Swap`, `SaveActive` (which sets `I := A`), and the block
instructions `If` / `While` (whose effect on `I` is that of their bodies);
an inline comment preserves `I` exactly when the wrapped instruction
does. -/
def preservesInactive : SmInstruction → Bool
  | .Swap => false
  | .SaveActive => false
  | .If _ => false
  | .While _ => false
  | .InlineComment i _ => preservesInactive i
  | _ => true

/-- Claim C4 (amended).  After any primitive instruction other than `Swap`
and `SaveActive` (with inline comments acting as their wrapped instruction,
and the block instructions `If`/`While` excluded since they act as their
bodies), the inactive variable is unchanged; `Swap` exchanges the two
variables.  The original claim exempted only `Swap`, but `SaveActive` sets
`I := A`. -/
theorem claim_C4_inactive_frame :
    (∀ (c : Config) (i : SmInstruction) (c' : Config), BigStep c i c' →
      preservesInactive i = true → c'.inactiveVar = c.inactiveVar) ∧
    (∀ (c c' : Config), BigStep c .Swap c' →
      c' = { c with activeVar := c.inactiveVar, inactiveVar := c.activeVar }) := by
  constructor
  · intro c i c' h hp
    induction i using preservesInactive.induct generalizing c c' with
    | case1 => simp [preservesInactive] at hp
    | case2 => simp [preservesInactive] at hp
    | case3 _ => simp [preservesInactive] at hp
    | case4 _ => simp [preservesInactive] at hp
    | case5 i s ih =>
        cases h with
        | inlineComment _ _ _ _ hinner =>
            exact ih _ _ hinner (by simpa [preservesInactive] using hp)
    | case6 t h1 h2 h3 h4 h5 =>
        cases h <;> first
          | rfl
          | exact absurd rfl h1
          | exact absurd rfl h2
          | exact (h3 _ rfl).elim
          | exact (h4 _ rfl).elim
          | exact (h5 _ _ rfl).elim
  · intro c c' h
    cases h
    rfl

/-- Claim C4, counterexample to the original claim: `SaveActive` is not
`Swap`, yet from `A = 1, I = 0` it changes the inactive variable to 1. -/
theorem claim_C4_counterexample :
    BigStep ⟨1, 0, [], true, [], []⟩ .SaveActive ⟨1, 1, [], true, [], []⟩ ∧
      (1 : Int) ≠ 0 ∧ SmInstruction.SaveActive ≠ .Swap := by
  refine ⟨.save _, by norm_num, ?_⟩
  intro h
  exact SmInstruction.noConfusion h

/-- Witness for the amended claim C4 at `IncrActive` from `A = 1, I = 5`. -/
theorem claim_C4_witness :
    BigStep ⟨1, 5, [], true, [], []⟩ .IncrActive ⟨2, 5, [], true, [], []⟩ ∧
      preservesInactive .IncrActive = true ∧
      (Config.mk 2 5 [] true [] []).inactiveVar
        = (Config.mk 1 5 [] true [] []).inactiveVar :=
  ⟨.incr _, rfl,
    claim_C4_inactive_frame.1 _ _ _ (.incr _) rfl⟩

/-! ## Claims C5, C6, C10: the validator -/

/-- Modelled from the spec: the six well-formedness conditions of §4.2 that
validation is claimed to characterise (no zero id; unique ids; at least one
and at most one initial state; every `next_state` defined; every
`match_char` in `[1, ALPHABET_SIZE)`). -/
def SpecValid (p : Program) : Prop :=
  (∀ s ∈ p.states, s.id ≠ 0) ∧
  (stateIds p).Nodup ∧
  1 ≤ (p.states.filter (fun s => s.initial)).length ∧
  (p.states.filter (fun s => s.initial)).length ≤ 1 ∧
  (∀ s ∈ p.states, ∀ t ∈ s.transitions, t.nextState ∈ stateIds p) ∧
  (∀ s ∈ p.states, ∀ t ∈ s.transitions,
    1 ≤ t.matchChar ∧ t.matchChar < ALPHABET_SIZE)

theorem validateTransition_eq_nil (ids : List Nat) (t : Transition) :
    validateTransition ids t = [] ↔
      (1 ≤ t.matchChar ∧ t.matchChar < ALPHABET_SIZE) ∧ t.nextState ∈ ids := by
  unfold validateTransition
  split_ifs with h1 h2 <;> simp_all <;> omega

theorem validateState_eq_nil (ids : List Nat) (s : State) :
    validateState ids s = [] ↔
      s.id ≠ 0 ∧ ∀ t ∈ s.transitions, validateTransition ids t = [] := by
  unfold validateState
  split_ifs with h1 <;> simp_all [List.flatMap_eq_nil_iff]

/-- The duplicate-error block is empty exactly when the ids are distinct. -/
theorem dupErrors_eq_nil (ids : List Nat) :
    ((ids.dedup.filter (fun id => 2 ≤ ids.count id)).map
      CompilerError.DuplicateStateId) = [] ↔ ids.Nodup := by
  rw [List.map_eq_nil_iff, List.filter_eq_nil_iff, List.nodup_iff_count_le_one]
  constructor
  · intro h a
    by_cases ha : a ∈ ids
    · have h2 := h a (List.mem_dedup.mpr ha)
      simp at h2
      omega
    · simp [List.count_eq_zero.mpr ha]
  · intro h a _
    have h2 := h a
    simp
    omega

/-- Claim C6.  `validate(P) = []` iff the six conditions of §4.2 all hold;
and each violated condition contributes an error of its own kind to the one
accumulated result. -/
theorem claim_C6_validator_soundness (p : Program) :
    (validateProgram p = [] ↔ SpecValid p) ∧
    ((∃ s ∈ p.states, s.id = 0) →
      CompilerError.InvalidStateId 0 ∈ validateProgram p) ∧
    (¬ (stateIds p).Nodup →
      ∃ id, CompilerError.DuplicateStateId id ∈ validateProgram p) ∧
    ((p.states.filter (fun s => s.initial)).length = 0 →
      CompilerError.NoInitialState ∈ validateProgram p) ∧
    (1 < (p.states.filter (fun s => s.initial)).length →
      ∃ ids, CompilerError.MultipleInitialStates ids ∈ validateProgram p) ∧
    ((∃ s ∈ p.states, ∃ t ∈ s.transitions, t.nextState ∉ stateIds p) →
      ∃ id, CompilerError.UndefinedState id ∈ validateProgram p) ∧
    ((∃ s ∈ p.states, ∃ t ∈ s.transitions,
        t.matchChar = 0 ∨ ALPHABET_SIZE ≤ t.matchChar) →
      ∃ ch, CompilerError.IllegalCharacter ch ∈ validateProgram p) := by
  have hva : validateProgram p =
      ((stateIds p).dedup.filter (fun id => 2 ≤ (stateIds p).count id)).map CompilerError.DuplicateStateId
      ++ (p.states.flatMap (validateState (stateIds p))
      ++ (if ((p.states.filter (fun s => s.initial)).map State.id).isEmpty
          then [CompilerError.NoInitialState]
          else if 1 < ((p.states.filter (fun s => s.initial)).map State.id).length
          then [CompilerError.MultipleInitialStates ((p.states.filter (fun s => s.initial)).map State.id)]
          else [])) := by
    simp only [validateProgram]
    rw [List.append_assoc]
  have initNil : ∀ (l : List Nat),
      (if l.isEmpty then [CompilerError.NoInitialState]
        else if 1 < l.length then [CompilerError.MultipleInitialStates l]
        else []) = [] ↔ l.length = 1 := by
    intro l
    by_cases h1 : l.isEmpty = true
    · have h0 : l.length = 0 := List.isEmpty_iff_length_eq_zero.mp h1
      rw [if_pos h1]
      simp
      omega
    · have h0 : l.length ≠ 0 := fun h => h1 (List.isEmpty_iff_length_eq_zero.mpr h)
      rw [if_neg h1]
      by_cases h2 : 1 < l.length
      · rw [if_pos h2]
        simp
        omega
      · rw [if_neg h2]
        simp
        omega
  refine ⟨?_, ?_, ?_, ?_, ?_, ?_, ?_⟩
  · rw [hva]
    simp only [List.append_eq_nil, dupErrors_eq_nil, List.flatMap_eq_nil_iff,
      initNil]
    unfold SpecValid
    constructor
    · rintro ⟨hdup, hstates, hinit⟩
      rw [List.length_map] at hinit
      refine ⟨?_, hdup, by omega, by omega, ?_, ?_⟩
      · intro s hs
        exact ((validateState_eq_nil _ _).mp (hstates s hs)).1
      · intro s hs t ht
        exact ((validateTransition_eq_nil _ _).mp
          (((validateState_eq_nil _ _).mp (hstates s hs)).2 t ht)).2
      · intro s hs t ht
        exact ((validateTransition_eq_nil _ _).mp
          (((validateState_eq_nil _ _).mp (hstates s hs)).2 t ht)).1
    · rintro ⟨hid, hdup, hge, hle, hnext, hchar⟩
      refine ⟨hdup, ?_, ?_⟩
      · intro s hs
        refine (validateState_eq_nil _ _).mpr ⟨hid s hs, ?_⟩
        intro t ht
        exact (validateTransition_eq_nil _ _).mpr
          ⟨hchar s hs t ht, hnext s hs t ht⟩
      · rw [List.length_map]
        omega
  · rintro ⟨s, hs, hid⟩
    rw [hva]
    refine List.mem_append.mpr (Or.inr (List.mem_append.mpr (Or.inl ?_)))
    refine List.mem_flatMap.mpr ⟨s, hs, ?_⟩
    unfold validateState
    simp [hid]
  · intro hdup
    rw [List.nodup_iff_count_le_one] at hdup
    push_neg at hdup
    obtain ⟨a, ha⟩ := hdup
    refine ⟨a, ?_⟩
    rw [hva]
    refine List.mem_append.mpr (Or.inl ?_)
    refine List.mem_map.mpr ⟨a, ?_, rfl⟩
    refine List.mem_filter.mpr ⟨List.mem_dedup.mpr ?_, by simp; omega⟩
    exact List.count_pos_iff.mp (by omega)
  · intro hlen
    rw [hva]
    refine List.mem_append.mpr (Or.inr (List.mem_append.mpr (Or.inr ?_)))
    have hemp : ((p.states.filter (fun s => s.initial)).map State.id).isEmpty = true := by
      rw [List.isEmpty_iff_length_eq_zero, List.length_map]
      exact hlen
    rw [if_pos hemp]
    simp
  · intro hlen
    rw [hva]
    refine ⟨(p.states.filter (fun s => s.initial)).map State.id,
      List.mem_append.mpr (Or.inr (List.mem_append.mpr (Or.inr ?_)))⟩
    have h0 : ¬ ((p.states.filter (fun s => s.initial)).map State.id).isEmpty = true := by
      rw [List.isEmpty_iff_length_eq_zero, List.length_map]
      omega
    have h1 : 1 < ((p.states.filter (fun s => s.initial)).map State.id).length := by
      rw [List.length_map]
      exact hlen
    rw [if_neg h0, if_pos h1]
    simp
  · rintro ⟨s, hs, t, ht, hnot⟩
    refine ⟨t.nextState, ?_⟩
    rw [hva]
    refine List.mem_append.mpr (Or.inr (List.mem_append.mpr (Or.inl ?_)))
    refine List.mem_flatMap.mpr ⟨s, hs, ?_⟩
    unfold validateState
    refine List.mem_append.mpr (Or.inr ?_)
    refine List.mem_flatMap.mpr ⟨t, ht, ?_⟩
    unfold validateTransition
    simp [hnot]
  · rintro ⟨s, hs, t, ht, hbad⟩
    refine ⟨t.matchChar, ?_⟩
    rw [hva]
    refine List.mem_append.mpr (Or.inr (List.mem_append.mpr (Or.inl ?_)))
    refine List.mem_flatMap.mpr ⟨s, hs, ?_⟩
    unfold validateState
    refine List.mem_append.mpr (Or.inr ?_)
    refine List.mem_flatMap.mpr ⟨t, ht, ?_⟩
    unfold validateTransition
    simp [hbad]

/-- Modelled from the spec: every state's transitions carry pairwise
distinct match characters (§3, determinism). -/
def distinctMatchChars (p : Program) : Prop :=
  ∀ s ∈ p.states, (s.transitions.map Transition.matchChar).Nodup

/-- A one-state program whose two transitions both match character 97. -/
def dupCharProgram : Program :=
  ⟨[⟨1, true, true, [⟨97, .Left, 1⟩, ⟨97, .Right, 1⟩]⟩]⟩

/-- Claim C5, counterexample: the validator accepts `dupCharProgram` (the
empty error list) although one of its states has two transitions on the
same match character — no distinctness check exists in `validate.rs`. -/
theorem claim_C5_counterexample :
    validateProgram dupCharProgram = [] ∧ ¬ distinctMatchChars dupCharProgram := by
  constructor
  · decide
  · intro h
    have := h ⟨1, true, true, [⟨97, .Left, 1⟩, ⟨97, .Right, 1⟩]⟩ (by decide)
    simp at this

/-- Claim C5 (amended).  Validation does not enforce match-character
distinctness: there are programs the validator accepts whose states carry
duplicate match characters. -/
theorem claim_C5_no_distinctness_check :
    ∃ p : Program, validateProgram p = [] ∧ ¬ distinctMatchChars p := by
  refine ⟨dupCharProgram, by decide, ?_⟩
  intro h
  have := h ⟨1, true, true, [⟨97, .Left, 1⟩, ⟨97, .Right, 1⟩]⟩ (by decide)
  simp at this

/-! ## Claim C10: one duplicate error per duplicated id -/

theorem count_dup_validateState (ids : List Nat) (s : State) (id : Nat) :
    (validateState ids s).count (.DuplicateStateId id) = 0 := by
  rw [List.count_eq_zero]
  unfold validateState validateTransition
  intro h
  simp only [List.mem_append, List.mem_flatMap] at h
  rcases h with h | ⟨t, ht, h⟩
  · split_ifs at h <;> simp_all
  · rcases h with h | h <;> split_ifs at h <;> simp_all

/-- Claim C10.  For every program and id, the validator emits exactly one
`DuplicateStateId(id)` error when two or more states bear `id`, and none
otherwise — regardless of how many states share the id. -/
theorem claim_C10_one_error_per_duplicated_id (p : Program) (id : Nat) :
    (validateProgram p).count (.DuplicateStateId id)
      = if 2 ≤ (stateIds p).count id then 1 else 0 := by
  have hva : validateProgram p =
      ((stateIds p).dedup.filter (fun i => 2 ≤ (stateIds p).count i)).map CompilerError.DuplicateStateId
      ++ (p.states.flatMap (validateState (stateIds p))
      ++ (if ((p.states.filter (fun s => s.initial)).map State.id).isEmpty
          then [CompilerError.NoInitialState]
          else if 1 < ((p.states.filter (fun s => s.initial)).map State.id).length
          then [CompilerError.MultipleInitialStates ((p.states.filter (fun s => s.initial)).map State.id)]
          else [])) := by
    simp only [validateProgram]
    rw [List.append_assoc]
  rw [hva, List.count_append, List.count_append]
  have hstate : (p.states.flatMap (validateState (stateIds p))).count
      (CompilerError.DuplicateStateId id) = 0 := by
    rw [List.count_eq_zero]
    intro h
    rcases List.mem_flatMap.mp h with ⟨s, _, hmem⟩
    exact (List.count_eq_zero.mp (count_dup_validateState (stateIds p) s id)) hmem
  have hinit : (if ((p.states.filter (fun s => s.initial)).map State.id).isEmpty
      then [CompilerError.NoInitialState]
      else if 1 < ((p.states.filter (fun s => s.initial)).map State.id).length
      then [CompilerError.MultipleInitialStates ((p.states.filter (fun s => s.initial)).map State.id)]
      else []).count (CompilerError.DuplicateStateId id) = 0 := by
    rw [List.count_eq_zero]
    intro h
    split_ifs at h <;> simp_all
  rw [hstate, hinit]
  have hinj : Function.Injective CompilerError.DuplicateStateId := by
    intro a b hab
    injection hab
  rw [List.count_map_of_injective _ _ hinj]
  by_cases hid : 2 ≤ (stateIds p).count id
  · rw [if_pos hid]
    have hmem : id ∈ (stateIds p).dedup.filter (fun i => 2 ≤ (stateIds p).count i) := by
      refine List.mem_filter.mpr ⟨List.mem_dedup.mpr ?_, by simpa using hid⟩
      exact List.count_pos_iff.mp (by omega)
    have hnodup : ((stateIds p).dedup.filter (fun i => 2 ≤ (stateIds p).count i)).Nodup :=
      (List.nodup_dedup _).filter _
    simp [List.count_eq_one_of_mem hnodup hmem]
  · rw [if_neg hid]
    have : id ∉ (stateIds p).dedup.filter (fun i => 2 ≤ (stateIds p).count i) := by
      intro hmem
      exact hid (by simpa using (List.mem_filter.mp hmem).2)
    simp [List.count_eq_zero.mpr this]

/-! ## Claim C9: duplicate match characters in the lowerer -/

/-- The number of `If` blocks at the top level of an instruction list. -/
def countIfs : List SmInstruction → Nat
  | [] => 0
  | .If _ :: rest => 1 + countIfs rest
  | _ :: rest => countIfs rest

theorem countIfs_append (a b : List SmInstruction) :
    countIfs (a ++ b) = countIfs a + countIfs b := by
  induction a with
  | nil => simp [countIfs]
  | cons i rest ih =>
      cases i <;> simp [countIfs, ih] <;> omega

theorem countIfs_seg (ts : List Transition) (c : Nat) :
    countIfs (transitionSeg ts c)
      = if (keyedByChar ts c).isSome then 1 else 0 := by
  unfold transitionSeg
  cases h : keyedByChar ts c <;> simp [h, countIfs]

theorem countIfs_compileTransitions (ts : List Transition) :
    countIfs (compileTransitions ts)
      = ((List.range ALPHABET_SIZE).filter
          (fun c => (keyedByChar ts c).isSome)).length := by
  unfold compileTransitions
  generalize ALPHABET_SIZE = n
  induction n with
  | zero => simp [countIfs]
  | succ n ih =>
      rw [List.range_succ, List.flatMap_append, countIfs_append, ih,
        List.filter_append]
      simp [countIfs_seg]
      by_cases h : (keyedByChar ts n).isSome <;> simp [h]

/-- Dropping the head of a nonempty list does not change its last
element. -/
theorem getLast?_cons_ne_nil {α : Type} (l : List α) (a : α) (h : l ≠ []) :
    (a :: l).getLast? = l.getLast? := by
  have h1 : (a :: l) = [a] ++ l := rfl
  rw [h1, List.getLast?_append]
  have h2 := List.getLast?_isSome.mpr h
  cases hl : l.getLast? with
  | none => rw [hl] at h2; simp at h2
  | some y => simp

/-- The `keyed_by_char` map holds an entry for `c` exactly when some
transition matches `c`. -/
theorem keyedByChar_isSome (ts : List Transition) (c : Nat) :
    (keyedByChar ts c).isSome = true ↔ c ∈ ts.map Transition.matchChar := by
  unfold keyedByChar
  rw [List.getLast?_isSome]
  constructor
  · intro h
    obtain ⟨x, hx⟩ := List.exists_mem_of_ne_nil _ h
    have hx2 := List.mem_filter.mp hx
    exact List.mem_map.mpr ⟨x, hx2.1, by simpa using hx2.2⟩
  · intro h hnil
    obtain ⟨x, hx, hcx⟩ := List.mem_map.mp h
    have : x ∈ List.filter (fun t => t.matchChar == c) ts :=
      List.mem_filter.mpr ⟨hx, by simp [hcx]⟩
    simp [hnil] at this

/-- Removing a transition whose match character recurs later in the list
does not change the `keyed_by_char` lookup for any character (later
`HashMap` insertions overwrite earlier ones). -/
theorem keyedByChar_drop (ts1 : List Transition) (t : Transition)
    (ts2 : List Transition) (hdup : ∃ t' ∈ ts2, t'.matchChar = t.matchChar)
    (c : Nat) :
    keyedByChar (ts1 ++ t :: ts2) c = keyedByChar (ts1 ++ ts2) c := by
  unfold keyedByChar
  rw [List.filter_append, List.filter_append, List.filter_cons]
  by_cases hc : t.matchChar = c
  · rw [if_pos (by simp [hc])]
    obtain ⟨t', ht', heq⟩ := hdup
    have hne : ts2.filter (fun x => x.matchChar == c) ≠ [] := by
      intro hnil
      have hmem : t' ∈ ts2.filter (fun x => x.matchChar == c) :=
        List.mem_filter.mpr ⟨ht', by simp [heq, hc]⟩
      simp [hnil] at hmem
    rw [List.getLast?_append, List.getLast?_append,
      getLast?_cons_ne_nil _ _ hne]
  · rw [if_neg (by simp [hc])]

/-- The number of `If` blocks of a sweep is the number of distinct match
characters below the alphabet size occurring in the transition list. -/
theorem countIfs_eq_distinctChars (ts : List Transition) :
    countIfs (compileTransitions ts)
      = ((ts.map Transition.matchChar).dedup.filter
          (fun ch => ch < ALPHABET_SIZE)).length := by
  rw [countIfs_compileTransitions]
  apply List.Perm.length_eq
  rw [List.perm_ext_iff_of_nodup ((List.nodup_range _).filter _)
    ((List.nodup_dedup _).filter _)]
  intro a
  rw [List.mem_filter, List.mem_filter, List.mem_range, List.mem_dedup]
  constructor
  · rintro ⟨h1, h2⟩
    exact ⟨(keyedByChar_isSome ts a).mp h2, by simpa using h1⟩
  · rintro ⟨h1, h2⟩
    exact ⟨by simpa using h2, (keyedByChar_isSome ts a).mpr h1⟩

/-- Claim C9.  When a transition list contains two or more transitions with
the same match character, the lowerer silently drops every earlier
duplicate: removing a transition whose match character recurs later leaves
the emitted sweep unchanged (so only the last occurrence is compiled,
however many duplicates there are and whatever other transitions surround
them), no error is raised (lowering is total), and the sweep holds exactly
one `If` block per distinct in-range match character. -/
theorem claim_C9_last_duplicate_wins (ts1 : List Transition) (t : Transition)
    (ts2 : List Transition)
    (hdup : ∃ t' ∈ ts2, t'.matchChar = t.matchChar) :
    compileTransitions (ts1 ++ t :: ts2) = compileTransitions (ts1 ++ ts2) ∧
    countIfs (compileTransitions (ts1 ++ t :: ts2))
      = (((ts1 ++ t :: ts2).map Transition.matchChar).dedup.filter
          (fun ch => ch < ALPHABET_SIZE)).length := by
  constructor
  · unfold compileTransitions
    congr 1
    funext c
    unfold transitionSeg
    rw [keyedByChar_drop ts1 t ts2 hdup c]
  · exact countIfs_eq_distinctChars _

/-! ## Claim C7: invalid input bytes -/

/-- Claim C7, counterexample: on the input `[0, 0]` — two offending
positions — `run` produces one single `BlankCharInInput` error (there is no
per-position `InvalidCharacter` error on the run path at all). -/
theorem claim_C7_counterexample :
    runOutcome [] [0, 0] (Except.error RunError.blankCharInInput) ∧
      List.count 0 [0, 0] = 2 := by
  constructor
  · show (Except.error RunError.blankCharInInput : Except RunError (List Nat))
      = Except.error RunError.blankCharInInput
    rfl
  · decide

/-- Claim C7 (amended).  When the input contains any byte outside
`[1, 127]`, `run` returns a single error — the ASCII-conversion error for
the first byte `≥ 128` if one exists, else `BlankCharInInput` for the first
NUL — and never the machine's output: the compiled program is not
executed. -/
theorem claim_C7_invalid_input_single_error (prog : List SmInstruction)
    (input : List Nat) (r : Except RunError (List Nat))
    (hbad : ∃ b ∈ input, b = 0 ∨ 128 ≤ b)
    (hrun : runOutcome prog input r) :
    (∃ e, r = Except.error e) ∧ ∀ out, r ≠ Except.ok out := by
  have herr : ∃ e, inputError input = some e := by
    unfold inputError
    cases hfind : input.findIdx? (fun b => 128 ≤ b) with
    | some i => exact ⟨_, rfl⟩
    | none =>
        have hany : input.any (fun b => b = 0) = true := by
          rcases hbad with ⟨b, hb, h0 | hge⟩
          · exact List.any_eq_true.mpr ⟨b, hb, by simp [h0]⟩
          · have := List.findIdx?_eq_none_iff.mp hfind b hb
            simp at this
            omega
        simp [hany]
  obtain ⟨e, he⟩ := herr
  unfold runOutcome at hrun
  rw [he] at hrun
  refine ⟨⟨e, hrun⟩, ?_⟩
  intro out hok
  rw [hrun] at hok
  exact Except.noConfusion hok

/-- Witness for the amended claim C7 at the one-byte NUL input. -/
theorem claim_C7_witness :
    (∃ b ∈ [(0 : Nat)], b = 0 ∨ 128 ≤ b) ∧
      runOutcome [] [0] (Except.error RunError.blankCharInInput) ∧
      ∃ e, (Except.error RunError.blankCharInInput : Except RunError (List Nat))
        = Except.error e := by
  have hrun : runOutcome [] [0] (Except.error RunError.blankCharInInput) := by
    show (Except.error RunError.blankCharInInput : Except RunError (List Nat))
      = Except.error RunError.blankCharInInput
    rfl
  refine ⟨⟨0, by simp⟩, hrun, ?_⟩
  exact (claim_C7_invalid_input_single_error [] [0] _ ⟨0, by simp⟩ hrun).1

/-! ## Claim C8: executing scenario A end to end -/

/-- A contiguous chunk of the per-character sweep emitted by
`Compile for [Transition]`. -/
def sweepChunk (ts : List Transition) (c0 n : Nat) : List SmInstruction :=
  (List.range' c0 n).flatMap (transitionSeg ts)

theorem compileTransitions_eq_chunk (ts : List Transition) :
    compileTransitions ts = sweepChunk ts 0 ALPHABET_SIZE := by
  rw [compileTransitions, sweepChunk, List.range_eq_range']

/-- Splitting the sweep at a character below the alphabet size. -/
theorem sweepChunk_split (ts : List Transition) (h : Nat)
    (hh : h < ALPHABET_SIZE) :
    sweepChunk ts 0 ALPHABET_SIZE
      = sweepChunk ts 0 h
        ++ (transitionSeg ts h ++ sweepChunk ts (h + 1) (ALPHABET_SIZE - 1 - h)) := by
  unfold sweepChunk
  have hseg : transitionSeg ts h ++ (List.range' (h + 1) (ALPHABET_SIZE - 1 - h)).flatMap (transitionSeg ts)
      = (List.range' h (ALPHABET_SIZE - h)).flatMap (transitionSeg ts) := by
    have hr : List.range' h (ALPHABET_SIZE - h)
        = h :: List.range' (h + 1) (ALPHABET_SIZE - 1 - h) := by
      have h1 : ALPHABET_SIZE - h = (ALPHABET_SIZE - 1 - h) + 1 := by omega
      rw [h1, List.range'_succ]
    rw [hr, List.flatMap_cons]
  rw [hseg, ← List.flatMap_append]
  congr 1
  have hap := List.range'_append 0 h (ALPHABET_SIZE - h) 1
  simp at hap
  rw [hap]
  congr 1
  omega

/-- Running a sweep chunk in which no guard can fire (either the inactive
variable is not hit by the advancing counter, or there is no transition for
any character of the chunk) just advances the counter by the chunk
length. -/
theorem exec_sweepChunk_pass (ts : List Transition) (n : Nat) :
    ∀ (c0 : Nat) (c : Config),
      (∀ j < n, (keyedByChar ts (c0 + j)).isSome →
        (c.activeVar + j : Int) ≠ c.inactiveVar) →
      BigStepList c (sweepChunk ts c0 n)
        { c with activeVar := c.activeVar + n } := by
  induction n with
  | zero =>
      intro c0 c _
      refine bigStepList_config_eq (.nil c) ?_
      congr 1
      simp
  | succ n ih =>
      intro c0 c hno
      rw [sweepChunk, List.range'_succ, List.flatMap_cons]
      have hstep : BigStepList c (transitionSeg ts c0)
          { c with activeVar := c.activeVar + 1 } := by
        unfold transitionSeg
        cases hk : keyedByChar ts c0 with
        | none =>
            refine exec_single (.inlineComment _ _ _ _ (.incr c))
        | some t =>
            refine .cons _ _ _ _ _ (.comment _ _) ?_
            refine .cons _ _ _ _ _ (.ifFalse _ _ ?_) ?_
            · have := hno 0 (by omega) (by simp [hk])
              simpa using this
            · exact exec_single (.inlineComment _ _ _ _ (.incr c))
      refine exec_append hstep (bigStepList_config_eq (ih (c0 + 1) _ ?_) ?_)
      · intro j hj hsome heq
        refine hno (j + 1) (by omega) ?_ ?_
        · have : c0 + (j + 1) = c0 + 1 + j := by omega
          rw [this]
          exact hsome
        · show c.activeVar + ((j : Int) + 1) = c.inactiveVar
          have heq' : c.activeVar + 1 + (j : Int) = c.inactiveVar := heq
          push_cast
          linarith
      · congr 1
        push_cast
        ring

/-- The body of one matched transition whose tape instruction is `Right`:
entered with both variables holding the matched head character and the
encoded left tape on top of the remaining right tape, it pops the head into
the (corrupted) new left tape `127·LT + 2·H`, pushes the next-state id, and
signals the fire with `I = -1`. -/
theorem exec_transition_right (t : Transition) (h lt : Nat) (rt : List Int)
    (err : Bool) (inp out : List Nat) (hT : t.tapeInstruction = .Right) :
    BigStepList ⟨(h : Int), (h : Int), (lt : Int) :: rt, err, inp, out⟩
      (compileTransition t)
      ⟨0, -1, (t.nextState : Int)
        :: (((ALPHABET_SIZE - 1 : Nat) : Int) * lt + 2 * h) :: rt, err, inp, out⟩ := by
  unfold compileTransition
  rw [hT]
  refine @exec_append _ _ _ ⟨(t.nextState : Int), 0, (((ALPHABET_SIZE - 1 : Nat) : Int) * lt + 2 * h) :: rt, err, inp, out⟩ _ (@exec_append _ _ _ ⟨0, 0, (((ALPHABET_SIZE - 1 : Nat) : Int) * lt + 2 * h) :: rt, err, inp, out⟩ _ (@exec_append _ _ _ ⟨0, (h : Int) + ((ALPHABET_SIZE - 1 : Nat) : Int) * lt + h, rt, err, inp, out⟩ _ (@exec_append _ _ _ ⟨(h : Int), (lt : Int), (h : Int) :: rt, err, inp, out⟩ _ ?_ ?_) ?_) ?_) ?_
  · refine .cons _ _ _ _ _ (.popCons _ _ _ rfl) ?_
    refine .cons _ _ _ _ _ (.swap _) ?_
    refine .cons _ _ _ _ _ (.pushActive _) ?_
    exact exec_single (.comment _ _)
  · exact exec_rightCode (h : Int) lt h rt err inp out
  · refine .cons _ _ _ _ _ (.comment _ _) ?_
    refine .cons _ _ _ _ _ (.swap _) ?_
    refine .cons _ _ _ _ _ (.pushActive _) ?_
    refine .cons _ _ _ _ _ (.pushZero _) ?_
    refine .cons _ _ _ _ _ (.popCons _ _ _ rfl) ?_
    refine .cons _ _ _ _ _ (.save _) ?_
    refine .cons _ _ _ _ _ (.comment _ _) ?_
    refine exec_single (bigStep_config_eq (.comment _ _) ?_)
    congr 1
    push_cast
    ring
  · refine bigStepList_config_eq (exec_incrRun t.nextState _) ?_
    congr 1
    simp
  · refine .cons _ _ _ _ _ (.pushActive _) ?_
    refine .cons _ _ _ _ _ (.pushZero _) ?_
    refine .cons _ _ _ _ _ (.popCons _ _ _ rfl) ?_
    refine .cons _ _ _ _ _ (.decr _) ?_
    refine .cons _ _ _ _ _ (.swap _) ?_
    refine bigStepList_config_eq (.nil _) ?_
    congr 1

/-- A state block that does not match the countdown: one decrement, guard
not taken. -/
theorem exec_stateSkip (s : State) (c : Config)
    (hne : c.activeVar - 1 ≠ c.inactiveVar) :
    BigStepList c (compileState s) { c with activeVar := c.activeVar - 1 } := by
  unfold compileState
  refine .cons _ _ _ _ _ (.comment _ _) ?_
  refine .cons _ _ _ _ _ (.decr _) ?_
  exact exec_single (.ifFalse _ _ hne)

/-- A state block that fires on head character `h` with a `Right`
transition: the full countdown guard, head unpacking, character sweep,
transition body, and HALT fall-through check. -/
theorem exec_stateFire (s : State) (t : Transition) (h lt : Nat)
    (rt : List Int) (inp out : List Nat)
    (hh : h < ALPHABET_SIZE)
    (hk : keyedByChar s.transitions h = some t)
    (hT : t.tapeInstruction = .Right) :
    BigStepList ⟨1, 0, (lt : Int) :: (h : Int) :: rt, false, inp, out⟩
      (compileState s)
      ⟨0, 0, (t.nextState : Int)
        :: (((ALPHABET_SIZE - 1 : Nat) : Int) * lt + 2 * h) :: rt, false, inp, out⟩ := by
  unfold compileState
  refine .cons _ _ _ _ _ (.comment _ _) ?_
  refine .cons _ _ _ _ _ (.decr _) ?_
  refine exec_single (.ifTrue _ _ _ (by norm_num) ?_)
  show BigStepList _ ([_, _, _, _, _, _, _, _] ++ _ ++ _) _
  refine @exec_append _ _ _ ⟨128 - (h : Int), -1, (t.nextState : Int) :: (((ALPHABET_SIZE - 1 : Nat) : Int) * lt + 2 * h) :: rt, false, inp, out⟩ _ (@exec_append _ _ _ ⟨0, (h : Int), (lt : Int) :: rt, false, inp, out⟩ _ ?_ ?_) ?_
  · refine .cons _ _ _ _ _ (.popCons _ _ _ rfl) ?_
    refine .cons _ _ _ _ _ (.swap _) ?_
    refine .cons _ _ _ _ _ (.popCons _ _ _ rfl) ?_
    refine .cons _ _ _ _ _ (.swap _) ?_
    refine .cons _ _ _ _ _ (.pushActive _) ?_
    refine .cons _ _ _ _ _ (.pushZero _) ?_
    refine .cons _ _ _ _ _ (.popCons _ _ _ rfl) ?_
    exact exec_single (.comment _ _)
  · rw [compileTransitions_eq_chunk, sweepChunk_split s.transitions h hh]
    refine @exec_append _ _ _ ⟨(h : Int), (h : Int), (lt : Int) :: rt, false, inp, out⟩ _ ?_ ?_
    · refine bigStepList_config_eq (exec_sweepChunk_pass s.transitions h 0 _ ?_) ?_
      · intro j hj _ heq
        have : (0 : Int) + j = h := heq
        have hji : (j : Int) = (h : Int) := by linarith
        have : j = h := by exact_mod_cast hji
        omega
      · congr 1
        simp
    · refine @exec_append _ _ _ ⟨1, -1, (t.nextState : Int) :: (((ALPHABET_SIZE - 1 : Nat) : Int) * lt + 2 * h) :: rt, false, inp, out⟩ _ ?_ ?_
      · unfold transitionSeg
        rw [hk]
        refine .cons _ _ _ _ _ (.comment _ _) ?_
        refine .cons _ _ _ _ _ (.ifTrue _ _ _ rfl (exec_transition_right t h lt rt false inp out hT)) ?_
        exact exec_single (.inlineComment _ _ _ _ (.incr _))
      · refine bigStepList_config_eq (exec_sweepChunk_pass s.transitions (ALPHABET_SIZE - 1 - h) (h + 1) _ ?_) ?_
        · intro j hj _ heq
          have : (1 : Int) + j = -1 := heq
          have : (j : Int) = -2 := by linarith
          omega
        · congr 1
          push_cast [ALPHABET_SIZE] at *
          omega
  · refine .cons _ _ _ _ _ (.swap _) ?_
    refine .cons _ _ _ _ _ (.incr _) ?_
    refine .cons _ _ _ _ _ (.comment _ _) ?_
    refine .cons _ _ _ _ _ (.whileFalse _ _ (by norm_num)) ?_
    refine exec_single (bigStep_config_eq (.save _) ?_)
    congr 1

/-- Witness for claim C9: a three-transition list in which character 97
appears first and last, with an unrelated transition on 98 in between;
dropping the earlier 97-transition leaves the sweep unchanged. -/
theorem claim_C9_witness :
    (∃ t' ∈ [Transition.mk 98 (.Write 5) 3, Transition.mk 97 .Right 2],
      t'.matchChar = (Transition.mk 97 .Left 1).matchChar) ∧
    compileTransitions ([] ++ Transition.mk 97 .Left 1
        :: [Transition.mk 98 (.Write 5) 3, Transition.mk 97 .Right 2])
      = compileTransitions ([] ++ [Transition.mk 98 (.Write 5) 3,
        Transition.mk 97 .Right 2]) :=
  ⟨⟨Transition.mk 97 .Right 2, by simp, rfl⟩,
    (claim_C9_last_duplicate_wins [] (Transition.mk 97 .Left 1)
      [Transition.mk 98 (.Write 5) 3, Transition.mk 97 .Right 2]
      ⟨Transition.mk 97 .Right 2, by simp, rfl⟩).1⟩

/-- Running the printing code of one character list (the body of
`print_string!` after its comment): each character is counted up from zero,
printed, and the active variable reset. -/
theorem exec_printChars (l : List Char) :
    ∀ (c : Config), c.activeVar = 0 → (∀ ch ∈ l, ch.toNat < 256) →
    BigStepList c
      (l.flatMap (fun ch => List.replicate ch.toNat .IncrActive
        ++ [.PrintActive, .PushZero, .PopToActive]))
      { c with activeVar := 0, output := c.output ++ l.map Char.toNat } := by
  induction l with
  | nil =>
      intro c ha _
      refine bigStepList_config_eq (.nil c) ?_
      cases c
      simp_all
  | cons ch rest ih =>
      intro c ha hch
      rw [List.flatMap_cons]
      have h1 : BigStepList c (List.replicate ch.toNat .IncrActive)
          { c with activeVar := (ch.toNat : Int) } := by
        refine bigStepList_config_eq (exec_incrRun ch.toNat c) ?_
        congr 1
        rw [ha]
        simp
      have hlt : (ch.toNat : Int) < 256 := by
        exact_mod_cast hch ch (by simp)
      have h2 : BigStepList { c with activeVar := (ch.toNat : Int) }
          [.PrintActive, .PushZero, .PopToActive]
          { c with activeVar := 0, output := c.output ++ [ch.toNat] } := by
        refine .cons _ _ _ _ _ (.printActive _) ?_
        refine .cons _ _ _ _ _ (.pushZero _) ?_
        refine exec_single (bigStep_config_eq (.popCons _ _ _ rfl) ?_)
        dsimp only
        congr 1
        rw [Int.emod_eq_of_lt (by positivity) hlt]
        simp
      refine exec_append (exec_append h1 h2) (bigStepList_config_eq (ih _ rfl ?_) ?_)
      · intro x hx
        exact hch x (by simp [hx])
      · congr 1
        simp

/-- Running the whole `print_string!` macro output. -/
theorem exec_printString (s : String) (c : Config) (ha : c.activeVar = 0)
    (hch : ∀ ch ∈ s.data ++ [Char.ofNat 10], ch.toNat < 256) :
    BigStepList c (printString s)
      { c with activeVar := 0, output := c.output ++ (s.data ++ [Char.ofNat 10]).map Char.toNat } := by
  unfold printString
  exact .cons _ _ _ _ _ (.comment _ _) (exec_printChars _ c ha hch)

/-! ### The scenario-A machine (`foo`, spec §8 table row A) -/

def fooT1 : Transition := ⟨102, .Right, 2⟩
def fooT2 : Transition := ⟨111, .Right, 3⟩
def fooT3 : Transition := ⟨111, .Right, 4⟩
def fooState1 : State := ⟨1, true, false, [fooT1]⟩
def fooState2 : State := ⟨2, false, false, [fooT2]⟩
def fooState3 : State := ⟨3, false, false, [fooT3]⟩
def fooState4 : State := ⟨4, false, true, []⟩

/-- The machine of scenario A: `1:init -f/R-> 2 -o/R-> 3 -o/R-> 4:accept`. -/
def fooProgram : Program := ⟨[fooState1, fooState2, fooState3, fooState4]⟩

/-- The body of the compiled main loop of `fooProgram`. -/
def fooMainBody : List SmInstruction :=
  (fooProgram.states.flatMap compileState) ++ [.PopToActive]

theorem fooMainBody_eq :
    fooMainBody = compileState fooState1 ++ (compileState fooState2
      ++ (compileState fooState3 ++ (compileState fooState4 ++ [.PopToActive]))) := by
  simp [fooMainBody, fooProgram, List.flatMap_cons, List.flatMap_nil,
    List.append_assoc]

theorem compileProgram_foo :
    compileProgram fooProgram =
      [.InlineComment .ToggleErrors "Disable errors",
       .Comment "Read input onto stack (in reverse)",
       .ReadToActive,
       .While [.PushActive, .PushZero, .PopToActive, .ReadToActive],
       .PushZero,
       .Comment "Set initial state"]
      ++ List.replicate 1 .IncrActive
      ++ [stateComment "Initial state ID" "0" ["0", "Head", "...Right tape"],
          .Comment "Main loop",
          .While fooMainBody,
          .PrintState,
          .DebugPrint "Checking result" false,
          .If (printString "ACCEPT"),
          .IncrActive,
          .If (printString "REJECT")] := by
  unfold compileProgram
  have hms : fooProgram.states.mergeSort (fun a b => a.id ≤ b.id)
      = fooProgram.states := List.mergeSort_of_sorted (by decide)
  simp only [hms]
  rfl

/-- The accepting state 4 block on the blank head (empty right tape): no
transition matches, and the HALT fall-through pushes the rebuilt stack and
the ACCEPT sentinel 0. -/
theorem exec_fooState4_halt (lt : Int) (inp out : List Nat) :
    BigStepList ⟨1, 0, [lt], false, inp, out⟩ (compileState fooState4)
      ⟨0, 0, [0, lt, 0], false, inp, out⟩ := by
  show BigStepList _ ([_, _] ++ [SmInstruction.If _]) _
  refine @exec_append _ _ _ ⟨0, 0, [lt], false, inp, out⟩ _ ?_ ?_
  · refine .cons _ _ _ _ _ (.comment _ _) ?_
    exact exec_single (.decr _)
  · refine exec_single (.ifTrue _ _ _ (by norm_num) ?_)
    show BigStepList _ ([_, _, _, _, _, _, _, _] ++ _ ++ _) _
    refine @exec_append _ _ _ ⟨128, 0, [lt], false, inp, out⟩ _ (@exec_append _ _ _ ⟨0, 0, [lt], false, inp, out⟩ _ ?_ ?_) ?_
    · refine .cons _ _ _ _ _ (.popCons _ _ _ rfl) ?_
      refine .cons _ _ _ _ _ (.swap _) ?_
      refine .cons _ _ _ _ _ (.popNil _ rfl rfl) ?_
      refine .cons _ _ _ _ _ (.swap _) ?_
      refine .cons _ _ _ _ _ (.pushActive _) ?_
      refine .cons _ _ _ _ _ (.pushZero _) ?_
      refine .cons _ _ _ _ _ (.popCons _ _ _ rfl) ?_
      exact exec_single (.comment _ _)
    · rw [show fooState4.transitions = [] from rfl, compileTransitions_eq_chunk]
      refine bigStepList_config_eq (exec_sweepChunk_pass [] ALPHABET_SIZE 0 _ ?_) ?_
      · intro j _ hsome
        simp [keyedByChar] at hsome
      · congr 1
    · refine .cons _ _ _ _ _ (.swap _) ?_
      refine .cons _ _ _ _ _ (.incr _) ?_
      refine .cons _ _ _ _ _ (.comment _ _) ?_
      refine .cons _ _ _ _ _ (.whileTrue _ ⟨0, 0, [0, lt, 0], false, inp, out⟩ _ _ (by norm_num) ?_ (.whileFalse _ _ (by norm_num))) ?_
      · refine .cons _ _ _ _ _ (.decr _) ?_
        refine .cons _ _ _ _ _ (.swap _) ?_
        refine .cons _ _ _ _ _ (.popCons _ _ _ rfl) ?_
        refine .cons _ _ _ _ _ (.swap _) ?_
        refine .cons _ _ _ _ _ (.pushActive _) ?_
        refine .cons _ _ _ _ _ (.swap _) ?_
        refine .cons _ _ _ _ _ (.pushActive _) ?_
        refine .cons _ _ _ _ _ (.pushZero _) ?_
        refine .cons _ _ _ _ _ (.popCons _ _ _ rfl) ?_
        refine .cons _ _ _ _ _ (.save _) ?_
        refine .cons _ _ _ _ _ (.comment _ _) ?_
        refine exec_single (bigStep_config_eq (.pushZero _) ?_)
        congr 1
      · exact exec_single (.save _)

/-- Ingesting the pre-reversed tape string `oof` (`[111, 111, 102]`): errors
are disabled, the bytes are pushed with the last-read `f` on top, the empty
left tape 0 is pushed. -/
theorem exec_fooIngest :
    BigStepList (initConfig [111, 111, 102])
      [.InlineComment .ToggleErrors "Disable errors",
       .Comment "Read input onto stack (in reverse)",
       .ReadToActive,
       .While [.PushActive, .PushZero, .PopToActive, .ReadToActive],
       .PushZero,
       .Comment "Set initial state"]
      ⟨0, 0, [0, 102, 111, 111], false, [], []⟩ := by
  refine .cons _ _ _ _ _ (.inlineComment _ _ _ _ (.toggleErrors _)) ?_
  refine .cons _ _ _ _ _ (.comment _ _) ?_
  refine .cons _ _ _ _ _ (.readSome _ 111 [111, 102] rfl) ?_
  have hb1 : BigStepList ⟨111, 0, [], false, [111, 102], []⟩
      [.PushActive, .PushZero, .PopToActive, .ReadToActive]
      ⟨111, 0, [111], false, [102], []⟩ := by
    refine .cons _ _ _ _ _ (.pushActive _) ?_
    refine .cons _ _ _ _ _ (.pushZero _) ?_
    refine .cons _ _ _ _ _ (.popCons _ _ _ rfl) ?_
    exact exec_single (.readSome _ 111 [102] rfl)
  have hb2 : BigStepList ⟨111, 0, [111], false, [102], []⟩
      [.PushActive, .PushZero, .PopToActive, .ReadToActive]
      ⟨102, 0, [111, 111], false, [], []⟩ := by
    refine .cons _ _ _ _ _ (.pushActive _) ?_
    refine .cons _ _ _ _ _ (.pushZero _) ?_
    refine .cons _ _ _ _ _ (.popCons _ _ _ rfl) ?_
    exact exec_single (.readSome _ 102 [] rfl)
  have hb3 : BigStepList ⟨102, 0, [111, 111], false, [], []⟩
      [.PushActive, .PushZero, .PopToActive, .ReadToActive]
      ⟨0, 0, [102, 111, 111], false, [], []⟩ := by
    refine .cons _ _ _ _ _ (.pushActive _) ?_
    refine .cons _ _ _ _ _ (.pushZero _) ?_
    refine .cons _ _ _ _ _ (.popCons _ _ _ rfl) ?_
    exact exec_single (.readNone _ rfl)
  refine .cons _ _ _ _ _ (.whileTrue _ _ _ _ (by norm_num) hb1 (.whileTrue _ _ _ _ (by norm_num) hb2 (.whileTrue _ _ _ _ (by norm_num) hb3 (.whileFalse _ _ (by norm_num))))) ?_
  refine .cons _ _ _ _ _ (.pushZero _) ?_
  exact exec_single (.comment _ _)

/-- Main-loop iteration 1: state 1 fires on head `f` (102), the corrupted
new left tape is `127·0 + 2·102 = 204`, next state 2. -/
theorem exec_fooIter1 :
    BigStepList ⟨1, 0, [0, 102, 111, 111], false, [], []⟩ fooMainBody
      ⟨2, 0, [204, 111, 111], false, [], []⟩ := by
  rw [fooMainBody_eq]
  refine @exec_append _ _ _ ⟨0, 0, [2, 204, 111, 111], false, [], []⟩ _ ?_ ?_
  · refine bigStepList_config_eq (exec_stateFire fooState1 fooT1 102 0 [111, 111] [] [] (by norm_num [ALPHABET_SIZE]) rfl rfl) ?_
    congr 1
  refine @exec_append _ _ _ ⟨-1, 0, [2, 204, 111, 111], false, [], []⟩ _ ?_ ?_
  · refine bigStepList_config_eq (exec_stateSkip fooState2 _ (by norm_num)) ?_
    congr 1
  refine @exec_append _ _ _ ⟨-2, 0, [2, 204, 111, 111], false, [], []⟩ _ ?_ ?_
  · refine bigStepList_config_eq (exec_stateSkip fooState3 _ (by norm_num)) ?_
    congr 1
  refine @exec_append _ _ _ ⟨-3, 0, [2, 204, 111, 111], false, [], []⟩ _ ?_ ?_
  · refine bigStepList_config_eq (exec_stateSkip fooState4 _ (by norm_num)) ?_
    congr 1
  exact exec_single (.popCons _ _ _ rfl)

/-- Main-loop iteration 2: state 2 fires on head `o` (111), new left tape
`127·204 + 2·111 = 26130`, next state 3. -/
theorem exec_fooIter2 :
    BigStepList ⟨2, 0, [204, 111, 111], false, [], []⟩ fooMainBody
      ⟨3, 0, [26130, 111], false, [], []⟩ := by
  rw [fooMainBody_eq]
  refine @exec_append _ _ _ ⟨1, 0, [204, 111, 111], false, [], []⟩ _ ?_ ?_
  · refine bigStepList_config_eq (exec_stateSkip fooState1 _ (by norm_num)) ?_
    congr 1
  refine @exec_append _ _ _ ⟨0, 0, [3, 26130, 111], false, [], []⟩ _ ?_ ?_
  · refine bigStepList_config_eq (exec_stateFire fooState2 fooT2 111 204 [111] [] [] (by norm_num [ALPHABET_SIZE]) rfl rfl) ?_
    congr 1
  refine @exec_append _ _ _ ⟨-1, 0, [3, 26130, 111], false, [], []⟩ _ ?_ ?_
  · refine bigStepList_config_eq (exec_stateSkip fooState3 _ (by norm_num)) ?_
    congr 1
  refine @exec_append _ _ _ ⟨-2, 0, [3, 26130, 111], false, [], []⟩ _ ?_ ?_
  · refine bigStepList_config_eq (exec_stateSkip fooState4 _ (by norm_num)) ?_
    congr 1
  exact exec_single (.popCons _ _ _ rfl)

/-- Main-loop iteration 3: state 3 fires on head `o` (111), new left tape
`127·26130 + 2·111 = 3318732`, next state 4; the right tape is now empty. -/
theorem exec_fooIter3 :
    BigStepList ⟨3, 0, [26130, 111], false, [], []⟩ fooMainBody
      ⟨4, 0, [3318732], false, [], []⟩ := by
  rw [fooMainBody_eq]
  refine @exec_append _ _ _ ⟨2, 0, [26130, 111], false, [], []⟩ _ ?_ ?_
  · refine bigStepList_config_eq (exec_stateSkip fooState1 _ (by norm_num)) ?_
    congr 1
  refine @exec_append _ _ _ ⟨1, 0, [26130, 111], false, [], []⟩ _ ?_ ?_
  · refine bigStepList_config_eq (exec_stateSkip fooState2 _ (by norm_num)) ?_
    congr 1
  refine @exec_append _ _ _ ⟨0, 0, [4, 3318732], false, [], []⟩ _ ?_ ?_
  · refine bigStepList_config_eq (exec_stateFire fooState3 fooT3 111 26130 [] [] [] (by norm_num [ALPHABET_SIZE]) rfl rfl) ?_
    congr 1
  refine @exec_append _ _ _ ⟨-1, 0, [4, 3318732], false, [], []⟩ _ ?_ ?_
  · refine bigStepList_config_eq (exec_stateSkip fooState4 _ (by norm_num)) ?_
    congr 1
  exact exec_single (.popCons _ _ _ rfl)

/-- Main-loop iteration 4: no transition matches the blank head in state 4;
the accepting HALT path pushes the ACCEPT sentinel 0, which then stops the
main loop. -/
theorem exec_fooIter4 :
    BigStepList ⟨4, 0, [3318732], false, [], []⟩ fooMainBody
      ⟨0, 0, [3318732, 0], false, [], []⟩ := by
  rw [fooMainBody_eq]
  refine @exec_append _ _ _ ⟨3, 0, [3318732], false, [], []⟩ _ ?_ ?_
  · refine bigStepList_config_eq (exec_stateSkip fooState1 _ (by norm_num)) ?_
    congr 1
  refine @exec_append _ _ _ ⟨2, 0, [3318732], false, [], []⟩ _ ?_ ?_
  · refine bigStepList_config_eq (exec_stateSkip fooState2 _ (by norm_num)) ?_
    congr 1
  refine @exec_append _ _ _ ⟨1, 0, [3318732], false, [], []⟩ _ ?_ ?_
  · refine bigStepList_config_eq (exec_stateSkip fooState3 _ (by norm_num)) ?_
    congr 1
  refine @exec_append _ _ _ ⟨0, 0, [0, 3318732, 0], false, [], []⟩ _ ?_ ?_
  · exact exec_fooState4_halt 3318732 [] []
  exact exec_single (.popCons _ _ _ rfl)

/-- The complete output of the compiled `fooProgram` on the input `oof`:
the state dump printed by the postlude, then `ACCEPT` and a newline. -/
def fooOut : List Nat :=
  dumpBytes ⟨0, 0, [3318732, 0], false, [], []⟩ ++ strBytes "ACCEPT\n"

/-- The full run of the compiled `fooProgram` on `oof`. -/
theorem exec_fooRun :
    BigStepList (initConfig [111, 111, 102]) (compileProgram fooProgram)
      ⟨1, 0, [3318732, 0], false, [], fooOut⟩ := by
  rw [compileProgram_foo]
  have hAB : BigStepList (initConfig [111, 111, 102]) ([.InlineComment .ToggleErrors "Disable errors", .Comment "Read input onto stack (in reverse)", .ReadToActive, .While [.PushActive, .PushZero, .PopToActive, .ReadToActive], .PushZero, .Comment "Set initial state"] ++ List.replicate 1 .IncrActive) ⟨1, 0, [0, 102, 111, 111], false, [], []⟩ := by
    refine @exec_append _ _ _ ⟨0, 0, [0, 102, 111, 111], false, [], []⟩ _ exec_fooIngest ?_
    refine bigStepList_config_eq (exec_incrRun 1 _) ?_
    congr 1
  refine exec_append hAB ?_
  · refine .cons _ _ _ _ _ (.comment _ _) ?_
    refine .cons _ _ _ _ _ (.comment _ _) ?_
    refine .cons _ _ _ _ _ (.whileTrue _ _ _ _ (by norm_num) exec_fooIter1 (.whileTrue _ _ _ _ (by norm_num) exec_fooIter2 (.whileTrue _ _ _ _ (by norm_num) exec_fooIter3 (.whileTrue _ _ _ _ (by norm_num) exec_fooIter4 (.whileFalse _ _ (by norm_num)))))) ?_
    refine .cons _ _ _ _ _ (.printState _) ?_
    refine .cons _ _ _ _ _ (.debugPrint _ _ _) ?_
    refine .cons _ ⟨0, 0, [3318732, 0], false, [], fooOut⟩ _ _ _ (.ifTrue _ _ _ rfl ?_) ?_
    · refine bigStepList_config_eq (exec_printString "ACCEPT" _ rfl (by decide)) ?_
      congr 1
    · refine .cons _ _ _ _ _ (.incr _) ?_
      refine exec_single (bigStep_config_eq (.ifFalse _ _ (by norm_num)) ?_)
      congr 1

/-- Claim C8.  The scenario-A machine (`1:init -f/R-> 2 -o/R-> 3 -o/R->
4:accept`) passes validation, and running its compiled program on the
pre-reversed tape string `oof` terminates with output whose tail is the
byte sequence `ACCEPT\n` — and not `REJECT\n`. -/
theorem claim_C8_scenario_A_accepts :
    validateProgram fooProgram = [] ∧
    ∃ out, runOutcome (compileProgram fooProgram) [111, 111, 102] (Except.ok out) ∧
      List.IsSuffix (strBytes "ACCEPT\n") out ∧
      ¬ List.IsSuffix (strBytes "REJECT\n") out := by
  refine ⟨by decide, fooOut, ?_, ?_, ?_⟩
  · show ∃ c', BigStepList (initConfig [111, 111, 102]) (compileProgram fooProgram) c' ∧ (Except.ok fooOut : Except RunError (List Nat)) = .ok c'.output
    exact ⟨_, exec_fooRun, rfl⟩
  · exact List.suffix_append _ _
  · intro hrej
    have hacc : List.IsSuffix (strBytes "ACCEPT\n") fooOut := List.suffix_append _ _
    have hlen : (strBytes "REJECT\n").length = (strBytes "ACCEPT\n").length := by decide
    rcases List.suffix_or_suffix_of_suffix hrej hacc with h | h
    · have := List.IsSuffix.eq_of_length h hlen
      exact absurd this (by decide)
    · have := List.IsSuffix.eq_of_length h hlen.symm
      exact absurd this (by decide)

end TMC
